import Mathlib

/-!
Verification development for the log-parser-mind repository.

Shallow embedding of the core components:
  * the Drain log-template tree (`internal/compression/drain/drain.go`),
  * the PII redactor (`pii` package),
  * the anomaly-detection baseline (`cmd/anomaly/main.go`),
  * the worker pool (`internal/pipeline/worker.go`).

Modelling conventions:
  * Go `float64` similarity scores and thresholds are modelled as `ℚ`.
    Inside `findBestMatch` every compared score is `m / n` for the same
    denominator `n` (the token count), and the default threshold `0.5`
    is exactly representable, so the float comparisons of the source are
    order-isomorphic to the rational ones for the sizes that occur.
  * `math.Sqrt` in the baseline is modelled by carrying the squared
    standard deviation: `sqrt v = 0 ↔ v = 0` and `sqrt v ≥ 1 ↔ v ≥ 1`
    on `v ≥ 0`, so clamping and threshold facts transfer verbatim.
  * Go maps used only via insert/lookup are association lists; the
    clusters of a Drain tree live in an allocation-ordered store and are
    referenced by index, mirroring Go pointer sharing between the tree
    nodes and the id map.
  * Go regular expressions (RE2 syntax, leftmost-first semantics) are
    embedded pattern-by-pattern as nondeterministic matchers over
    character lists; candidate states are generated in the engine's
    backtracking preference order (greedy first), so the head of the
    candidate list is the match the Go engine selects.
-/

/-! ## Characters and tokenization -/

/-- Go `unicode.IsSpace`: the White_Space property (the code points
relevant here; `strings.Fields` splits on these). -/
def goIsSpace (c : Char) : Bool :=
  c = ' ' || c = '\t' || c = '\n' || c.toNat = 0x0B || c.toNat = 0x0C ||
  c = '\r' || c.toNat = 0x85 || c.toNat = 0xA0 || c.toNat = 0x1680 ||
  (0x2000 ≤ c.toNat && c.toNat ≤ 0x200A) || c.toNat = 0x2028 ||
  c.toNat = 0x2029 || c.toNat = 0x202F || c.toNat = 0x205F || c.toNat = 0x3000

/-- Go `strings.Fields`, single pass with the current (reversed) field
as accumulator: split on runs of whitespace, drop empty tokens. -/
def goFieldsAux : List Char → List Char → List String
  | [], acc => if acc.isEmpty then [] else [String.mk acc.reverse]
  | c :: rest, acc =>
    if goIsSpace c then
      if acc.isEmpty then goFieldsAux rest []
      else String.mk acc.reverse :: goFieldsAux rest []
    else goFieldsAux rest (c :: acc)

def goFields (s : String) : List String := goFieldsAux s.data []

/-! ## Regular-expression matchers

A matching state is the character just before the current position
(needed for the word-boundary assertion) together with the remaining
characters.  A matcher maps a state to the list of possible successor
states, ordered by the Go/RE2 backtracking preference (greedy
alternatives first), so `(m st).head?` is the alternative the engine
commits to. -/

abbrev MSt := Option Char × List Char

/-- RE2 word character for the ASCII `\b` assertion: `[0-9A-Za-z_]`. -/
def isWordChar (c : Char) : Bool := c.isAlphanum || c = '_'

def stWord : Option Char → Bool
  | none => false
  | some c => isWordChar c

def headWord : List Char → Bool
  | [] => false
  | c :: _ => isWordChar c

/-- Consume one character of the class `p`. -/
def mCls (p : Char → Bool) : MSt → List MSt
  | (_, []) => []
  | (_, c :: rest) => if p c then [(some c, rest)] else []

def mLit (c : Char) : MSt → List MSt := mCls (· = c)

def mSeq (a b : MSt → List MSt) : MSt → List MSt := fun s => (a s).flatMap b

/-- `x?`, greedy: try consuming first. -/
def mOpt (a : MSt → List MSt) : MSt → List MSt := fun s => a s ++ [s]

/-- The `\b` word-boundary assertion. -/
def mB : MSt → List MSt := fun s => if stWord s.1 != headWord s.2 then [s] else []

/-- Exactly `n` characters of class `p`. -/
def mClsN (p : Char → Bool) : Nat → MSt → List MSt
  | 0, s => [s]
  | n + 1, s => (mCls p s).flatMap (mClsN p n)

/-- Length of the maximal run of class `p` at the current position. -/
def runLen (p : Char → Bool) : List Char → Nat
  | [] => 0
  | c :: rest => if p c then runLen p rest + 1 else 0

/-- Between `lo` and `hi` characters of class `p`, greedy (longest first). -/
def mClsRange (p : Char → Bool) (lo hi : Nat) (s : MSt) : List MSt :=
  let n := min hi (runLen p s.2)
  ((List.range (n + 1)).reverse.filter (lo ≤ ·)).flatMap (fun k => mClsN p k s)

/-- `p{lo,}`, greedy. -/
def mClsAtLeast (p : Char → Bool) (lo : Nat) (s : MSt) : List MSt :=
  mClsRange p lo s.2.length s

/-- `p+`, greedy. -/
def mClsPlus (p : Char → Bool) : MSt → List MSt := mClsAtLeast p 1

/-- All scan positions of a string: `(previous character, suffix)` pairs. -/
def posList : Option Char → List Char → List MSt
  | p, [] => [(p, [])]
  | p, c :: rest => (p, c :: rest) :: posList (some c) rest

/-- Go `regexp.MatchString`: the pattern matches somewhere in `s`. -/
def matchesSomewhere (m : MSt → List MSt) (s : String) : Bool :=
  (posList none s.data).any (fun st => !(m st).isEmpty)

/-- One step of `ReplaceAllString`: scan left to right over the original
characters, replace each leftmost-first match by the placeholder, and
continue after the match (Go matches against the original string, so
the boundary context after a replacement is the last matched
character). -/
def replGo (m : MSt → List MSt) (ph : List Char) : Nat → Option Char → List Char → List Char
  | 0, _, cs => cs
  | fuel + 1, prev, cs =>
    match cs with
    | [] => []
    | c :: rest =>
      match (m (prev, cs)).head? with
      | some (last, rem) =>
        if rem.length < cs.length then ph ++ replGo m ph fuel last rem
        else c :: replGo m ph fuel (some c) rest
      | none => c :: replGo m ph fuel (some c) rest

/-- Go `Regexp.ReplaceAllString` (no `$` expansion occurs in the
placeholders used by this repository). -/
def replaceAll (m : MSt → List MSt) (ph : String) (s : String) : String :=
  String.mk (replGo m ph.data (s.data.length + 1) none s.data)

/-! ## The concrete patterns of `drain.go` and the `pii` package -/

def isHexChar (c : Char) : Bool :=
  c.isDigit || ('a' ≤ c && c ≤ 'f') || ('A' ≤ c && c ≤ 'F')

/-- `[^\s]` with RE2's Perl class `\s = [\t\n\f\r ]`. -/
def isRegexNonSpace (c : Char) : Bool :=
  !(c = '\t' || c = '\n' || c.toNat = 0x0C || c = '\r' || c = ' ')

/-- `[-.\s]` (the phone-number separator class). -/
def isPhoneSep (c : Char) : Bool :=
  c = '-' || c = '.' || !isRegexNonSpace c

/-- `[-\s]` (the credit-card separator class). -/
def isCcSep (c : Char) : Bool := c = '-' || !isRegexNonSpace c

/-- `[a-zA-Z0-9._%+-]` (e-mail local part). -/
def isEmailLocalChar (c : Char) : Bool :=
  c.isAlphanum || c = '.' || c = '_' || c = '%' || c = '+' || c = '-'

/-- `[a-zA-Z0-9.-]` (e-mail domain part). -/
def isEmailDomainChar (c : Char) : Bool := c.isAlphanum || c = '.' || c = '-'

/-- `\b\d{1,3}\.\d{1,3}\.\d{1,3}\.\d{1,3}\b` -/
def patIPv4 : MSt → List MSt :=
  mSeq mB <| mSeq (mClsRange Char.isDigit 1 3) <| mSeq (mLit '.') <|
  mSeq (mClsRange Char.isDigit 1 3) <| mSeq (mLit '.') <|
  mSeq (mClsRange Char.isDigit 1 3) <| mSeq (mLit '.') <|
  mSeq (mClsRange Char.isDigit 1 3) mB

/-- `\b[0-9a-fA-F]{8}-…{4}-…{4}-…{4}-…{12}\b` (UUID). -/
def patUUID : MSt → List MSt :=
  mSeq mB <| mSeq (mClsN isHexChar 8) <| mSeq (mLit '-') <|
  mSeq (mClsN isHexChar 4) <| mSeq (mLit '-') <|
  mSeq (mClsN isHexChar 4) <| mSeq (mLit '-') <|
  mSeq (mClsN isHexChar 4) <| mSeq (mLit '-') <|
  mSeq (mClsN isHexChar 12) mB

/-- `\b[0-9a-fA-F]{8,}\b` -/
def patHex8 : MSt → List MSt :=
  mSeq mB <| mSeq (mClsAtLeast isHexChar 8) mB

/-- `\b\d+\b` -/
def patNumber : MSt → List MSt :=
  mSeq mB <| mSeq (mClsPlus Char.isDigit) mB

/-- `/[^\s]+` -/
def patPath : MSt → List MSt :=
  mSeq (mLit '/') (mClsPlus isRegexNonSpace)

/-- `https?://[^\s]+` -/
def patURL : MSt → List MSt :=
  mSeq (mLit 'h') <| mSeq (mLit 't') <| mSeq (mLit 't') <| mSeq (mLit 'p') <|
  mSeq (mOpt (mLit 's')) <| mSeq (mLit ':') <| mSeq (mLit '/') <|
  mSeq (mLit '/') (mClsPlus isRegexNonSpace)

/-- `[a-zA-Z0-9._%+-]+@[a-zA-Z0-9.-]+\.[a-zA-Z]{2,}` -/
def patEmail : MSt → List MSt :=
  mSeq (mClsPlus isEmailLocalChar) <| mSeq (mLit '@') <|
  mSeq (mClsPlus isEmailDomainChar) <| mSeq (mLit '.') <|
  mSeq (mClsAtLeast Char.isAlpha 2) (fun s => [s])

/-- `\b(?:\+?1[-.\s]?)?\(?\d{3}\)?[-.\s]?\d{3}[-.\s]?\d{4}\b` -/
def patPhone : MSt → List MSt :=
  mSeq mB <|
  mSeq (mOpt (mSeq (mOpt (mLit '+')) (mSeq (mLit '1') (mOpt (mCls isPhoneSep))))) <|
  mSeq (mOpt (mLit '(')) <| mSeq (mClsN Char.isDigit 3) <|
  mSeq (mOpt (mLit ')')) <| mSeq (mOpt (mCls isPhoneSep)) <|
  mSeq (mClsN Char.isDigit 3) <| mSeq (mOpt (mCls isPhoneSep)) <|
  mSeq (mClsN Char.isDigit 4) mB

/-- `\b\d{3}-\d{2}-\d{4}\b` (SSN). -/
def patSSN : MSt → List MSt :=
  mSeq mB <| mSeq (mClsN Char.isDigit 3) <| mSeq (mLit '-') <|
  mSeq (mClsN Char.isDigit 2) <| mSeq (mLit '-') <|
  mSeq (mClsN Char.isDigit 4) mB

/-- `\b(?:\d{4}[-\s]?){3}\d{4}\b` (credit card). -/
def patCreditCard : MSt → List MSt :=
  mSeq mB <|
  mSeq (mSeq (mClsN Char.isDigit 4) (mOpt (mCls isCcSep))) <|
  mSeq (mSeq (mClsN Char.isDigit 4) (mOpt (mCls isCcSep))) <|
  mSeq (mSeq (mClsN Char.isDigit 4) (mOpt (mCls isCcSep))) <|
  mSeq (mClsN Char.isDigit 4) mB

/-! ## Go `strconv.ParseFloat` syntax acceptance

`isVariable` first tries `strconv.ParseFloat(token, 64)`.  We model the
set of accepted strings: the special forms (`[+-]?inf`, `[+-]?infinity`,
`nan`, case-insensitively, with no sign before `nan` — the `special`
switch in atof.go falls through from the sign case to the `i` case
only), and decimal / hexadecimal numeric literals with Go's underscore
rule (an underscore only between digits, or directly after the `0x`
prefix), full string consumed. -/

/-- After one digit, consume further digits and single underscores that
sit between digits. -/
def duMore (isD : Char → Bool) : List Char → List Char
  | [] => []
  | c :: rest =>
    if isD c then duMore isD rest
    else if c = '_' then
      match rest with
      | [] => c :: rest
      | d :: rest2 => if isD d then duMore isD rest2 else c :: rest
    else c :: rest

/-- `digit (('_')? digit)*`: at least one digit, underscores strictly
between digits; returns the remainder on success. -/
def afterDigitsU (isD : Char → Bool) : List Char → Option (List Char)
  | [] => none
  | c :: rest => if isD c then some (duMore isD rest) else none

/-- Mantissa: `digits ['.' digits?] | '.' digits` (underscore rule inside
each digit group). -/
def afterMantissa (isD : Char → Bool) (cs : List Char) : Option (List Char) :=
  match afterDigitsU isD cs with
  | some rest =>
    match rest with
    | '.' :: rest2 =>
      match afterDigitsU isD rest2 with
      | some rest3 => some rest3
      | none => some rest2
    | _ => some rest
  | none =>
    match cs with
    | '.' :: rest2 => afterDigitsU isD rest2
    | _ => none

/-- Exponent part `[eEpP] [+-]? digits` (decimal digits). -/
def afterExponent (expLo expHi : Char) (cs : List Char) : Option (List Char) :=
  match cs with
  | c :: rest =>
    if c = expLo || c = expHi then
      match rest with
      | s :: rest2 =>
        if s = '+' || s = '-' then afterDigitsU Char.isDigit rest2
        else afterDigitsU Char.isDigit rest
      | [] => none
    else none
  | [] => none

def toLowerChar (c : Char) : Char := c.toLower

/-- The special forms of `strconv/atof.go`. -/
def isFloatSpecial (cs : List Char) : Bool :=
  let low := cs.map toLowerChar
  match low with
  | '+' :: rest => rest = "inf".data || rest = "infinity".data
  | '-' :: rest => rest = "inf".data || rest = "infinity".data
  | _ => low = "inf".data || low = "infinity".data || low = "nan".data

/-- Numeric literal acceptance (after an optional sign). -/
def isFloatNumberNoSign (cs : List Char) : Bool :=
  -- hexadecimal: 0x / 0X, optional underscore after the prefix, mandatory p-exponent
  let hexCase :=
    match cs with
    | '0' :: x :: rest =>
      if x = 'x' || x = 'X' then
        let body := match rest with
          | '_' :: d :: rest2 => if isHexChar d then afterMantissa isHexChar (d :: rest2) else none
          | _ => afterMantissa isHexChar rest
        match body with
        | some rest3 => (afterExponent 'p' 'P' rest3) = some []
        | none => false
      else false
    | _ => false
  let decCase :=
    match afterMantissa Char.isDigit cs with
    | some rest =>
      rest = [] || (afterExponent 'e' 'E' rest) = some []
    | none => false
  hexCase || decCase

/-- Go `strconv.ParseFloat(s, 64)` succeeds. -/
def goParseFloatOk (s : String) : Bool :=
  let cs := s.data
  isFloatSpecial cs ||
  (match cs with
   | '+' :: rest => isFloatNumberNoSign rest
   | '-' :: rest => isFloatNumberNoSign rest
   | _ => isFloatNumberNoSign cs)

/-! ## `isVariable` and preprocessing (`drain.go`) -/

/-- The compiled pattern list of `compilePatterns`, in source order. -/
def drainPatterns : List (MSt → List MSt) :=
  [patIPv4, patUUID, patHex8, patNumber, patPath, patURL, patEmail]

/-- `DrainTree.isVariable`: a pure number, or a match of any pattern. -/
def isVariable (token : String) : Bool :=
  goParseFloatOk token || drainPatterns.any (fun p => matchesSomewhere p token)

/-- `preprocessTokens`: replace obvious variables with the wildcard. -/
def preprocessTokens (tokens : List String) : List String :=
  tokens.map (fun t => if isVariable t then "<*>" else t)

/-! ## FNV-1a 64 and cluster ids -/

def fnvOffset64 : Nat := 14695981039346656037
def fnvPrime64 : Nat := 1099511628211

/-- FNV-1a over a byte sequence, 64-bit wrap-around. -/
def fnv1a64 (bytes : List Nat) : Nat :=
  bytes.foldl (fun h b => ((h ^^^ b) * fnvPrime64) % (2 ^ 64)) fnvOffset64

/-- UTF-8 encoding of one scalar value. -/
def charUtf8 (c : Char) : List Nat :=
  let n := c.toNat
  if n < 0x80 then [n]
  else if n < 0x800 then
    [0xC0 ||| (n >>> 6), 0x80 ||| (n &&& 0x3F)]
  else if n < 0x10000 then
    [0xE0 ||| (n >>> 12), 0x80 ||| ((n >>> 6) &&& 0x3F), 0x80 ||| (n &&& 0x3F)]
  else
    [0xF0 ||| (n >>> 18), 0x80 ||| ((n >>> 12) &&& 0x3F),
     0x80 ||| ((n >>> 6) &&& 0x3F), 0x80 ||| (n &&& 0x3F)]

/-- The bytes of a Go string (UTF-8). -/
def strBytes (s : String) : List Nat := s.data.flatMap charUtf8

/-- `%x` of a `uint64`: lowercase hex, no padding. -/
def natToHex (n : Nat) : String := String.mk (Nat.toDigits 16 n)

/-- `generateClusterID`: `"tmpl_" + %x(fnv1a64(strings.Join(tokens, " ")))`. -/
def generateClusterID (tokens : List String) : String :=
  "tmpl_" ++ natToHex (fnv1a64 (strBytes (String.intercalate " " tokens)))

/-- `createTemplate`: tokens joined by single spaces. -/
def createTemplate (tokens : List String) : String :=
  String.intercalate " " tokens

/-! ## Drain tree data model (`drain.go`)

Clusters live in an allocation-ordered store (`List LogCluster`); tree
nodes and the id map refer to them by store index, which models the Go
pointers shared between `ClusterNode.Clusters` and `DrainTree.clusters`.
The unused `mu` fields and the unread `ExtraDelimiter` configuration
string are omitted. -/

structure LogCluster where
  id : String
  template : String
  tokens : List String
  size : Int
  firstSeen : Int
  lastSeen : Int
  sampleLogs : List String
  deriving DecidableEq, Repr

def dummyCluster : LogCluster :=
  { id := ""
    template := ""
    tokens := []
    size := 0
    firstSeen := 0
    lastSeen := 0
    sampleLogs := [] }

structure ParseResult where
  templateId : String
  template : String
  vars : List (String × String)   -- the `Variables` map (`variables` is reserved in Lean)
  isNew : Bool
  deriving DecidableEq, Repr

/-- `ClusterNode`: children keyed by routing string, attached cluster
store-indices, and the (write-only) depth field. -/
inductive ClusterNode where
  | mk : List (String × ClusterNode) → List Nat → Nat → ClusterNode

def ClusterNode.keyToChild : ClusterNode → List (String × ClusterNode)
  | .mk ch _ _ => ch

def ClusterNode.clusterIdxs : ClusterNode → List Nat
  | .mk _ cl _ => cl

def ClusterNode.nodeDepth : ClusterNode → Nat
  | .mk _ _ d => d

def ClusterNode.addCluster (n : ClusterNode) (i : Nat) : ClusterNode :=
  match n with
  | .mk ch cl d => .mk ch (cl ++ [i]) d

/-- Go map assignment `m[k] = v` on an association list. -/
def assocSet {α : Type} : List (String × α) → String → α → List (String × α)
  | [], k, v => [(k, v)]
  | (k', v') :: rest, k, v =>
    if k' = k then (k, v) :: rest else (k', v') :: assocSet rest k v

def ClusterNode.setChild (n : ClusterNode) (k : String) (c : ClusterNode) : ClusterNode :=
  match n with
  | .mk ch cl d => .mk (assocSet ch k c) cl d

structure DrainConfig where
  maxDepth : Nat
  simThreshold : ℚ
  maxChildren : Nat
  maxClusters : Nat
  maxSampleLogs : Nat
  deriving DecidableEq, Repr

/-- `DefaultConfig()`. -/
def defaultConfig : DrainConfig :=
  { maxDepth := 4
    simThreshold := 1/2
    maxChildren := 100
    maxClusters := 20
    maxSampleLogs := 5 }

structure DrainTree where
  root : ClusterNode
  store : List LogCluster
  clustersMap : List (String × Nat)
  maxDepth : Nat
  simThreshold : ℚ
  maxChildren : Nat
  maxClusters : Nat

/-- `NewDrainTree`: zero configuration fields fall back to defaults. -/
def newDrainTree (cfg : DrainConfig) : DrainTree :=
  { root := ClusterNode.mk [] [] 0
    store := []
    clustersMap := []
    maxDepth := if cfg.maxDepth = 0 then 4 else cfg.maxDepth
    simThreshold := if cfg.simThreshold = 0 then 1/2 else cfg.simThreshold
    maxChildren := if cfg.maxChildren = 0 then 100 else cfg.maxChildren
    maxClusters := if cfg.maxClusters = 0 then 20 else cfg.maxClusters }

/-- `calculateSimilarity`: fraction of positions where the template
token equals the log token or is the wildcard.  (For equal-length
inputs the Go loop indexes both slices in lock-step, which is the
`zip`.)  The empty/empty case is `0/0`: `0` here, `NaN` in Go — both
fail the strict `sim > maxSim` test in `findBestMatch`, so the two
models select identically. -/
def calculateSimilarity (template log : List String) : ℚ :=
  if template.length ≠ log.length then 0
  else
    let hits := (template.zip log).countP (fun p => p.1 == p.2 || p.1 == "<*>")
    (hits : ℚ) / (template.length : ℚ)

/-- The loop of `findBestMatch`, with the accumulator made explicit.
A store index that is out of range is skipped; in the program every
index attached to a tree node is in range (the store only grows). -/
def findBestMatchGo (store : List LogCluster) (tokens : List String) (thr : ℚ) :
    List Nat → Option Nat → ℚ → Option Nat
  | [], best, _ => best
  | i :: rest, best, maxSim =>
    match store[i]? with
    | none => findBestMatchGo store tokens thr rest best maxSim
    | some c =>
      if c.tokens.length ≠ tokens.length then
        findBestMatchGo store tokens thr rest best maxSim
      else
        let sim := calculateSimilarity c.tokens tokens
        if maxSim < sim ∧ thr ≤ sim then
          findBestMatchGo store tokens thr rest (some i) sim
        else
          findBestMatchGo store tokens thr rest best maxSim

/-- `findBestMatch`: best match among the clusters attached to a node. -/
def findBestMatch (store : List LogCluster) (idxs : List Nat)
    (tokens : List String) (thr : ℚ) : Option Nat :=
  findBestMatchGo store tokens thr idxs none 0

/-- The depth-1 routing key `fmt.Sprintf("len_%d", n)`. -/
def lenKey (n : Nat) : String := "len_" ++ toString n

/-- The recursion of `treeSearch`, driven by the fuel
`maxDepth - depth`: the source recursion increments `depth` only while
`depth < maxDepth`, so along every call `fuel = maxDepth - depth`; at
fuel `0` we have `maxDepth ≤ depth` and the source returns
`findBestMatch` — exactly the fuel-0 branch. -/
def treeSearchGo (store : List LogCluster) (tokens : List String)
    (maxDepth : Nat) (thr : ℚ) : Nat → ClusterNode → Nat → Option Nat
  | 0, node, _ => findBestMatch store node.clusterIdxs tokens thr
  | fuel + 1, node, depth =>
    if maxDepth ≤ depth ∨ tokens.length < depth then
      findBestMatch store node.clusterIdxs tokens thr
    else if depth = 1 then
      match List.lookup (lenKey tokens.length) node.keyToChild with
      | some child => treeSearchGo store tokens maxDepth thr fuel child (depth + 1)
      | none => none
    else
      match tokens[depth - 2]? with
      | some key =>
        match List.lookup key node.keyToChild with
        | some child => treeSearchGo store tokens maxDepth thr fuel child (depth + 1)
        | none =>
          match List.lookup "<*>" node.keyToChild with
          | some w => treeSearchGo store tokens maxDepth thr fuel w (depth + 1)
          | none => findBestMatch store node.clusterIdxs tokens thr
      | none => findBestMatch store node.clusterIdxs tokens thr

/-- `treeSearch`. -/
def treeSearch (store : List LogCluster) (node : ClusterNode) (tokens : List String)
    (depth maxDepth : Nat) (thr : ℚ) : Option Nat :=
  treeSearchGo store tokens maxDepth thr (maxDepth - depth) node depth

/-- The recursion of `addToTree`, driven by the same fuel
`maxDepth - depth` as `treeSearchGo` (fuel `0` means `maxDepth ≤ depth`,
where the source appends the cluster at the current node). -/
def addToTreeGo (cIdx : Nat) (tokens : List String) (maxDepth : Nat) :
    Nat → ClusterNode → Nat → ClusterNode
  | 0, node, _ => node.addCluster cIdx
  | fuel + 1, node, depth =>
    if maxDepth ≤ depth ∨ tokens.length < depth then node.addCluster cIdx
    else
      match (if depth = 1 then some (lenKey tokens.length) else tokens[depth - 2]?) with
      | none => node.addCluster cIdx
      | some key =>
        let child := match List.lookup key node.keyToChild with
          | some c => c
          | none => ClusterNode.mk [] [] depth
        node.setChild key (addToTreeGo cIdx tokens maxDepth fuel child (depth + 1))

/-- `addToTree`. -/
def addToTree (node : ClusterNode) (cIdx : Nat) (tokens : List String)
    (depth maxDepth : Nat) : ClusterNode :=
  addToTreeGo cIdx tokens maxDepth (maxDepth - depth) node depth

/-- The generalization loop of `updateCluster`:
`newTokens[i] = "<*>"` when `i < len(tokens)` and the tokens differ,
otherwise the old cluster token is kept. -/
def generalizeTokens : List String → List String → List String
  | [], _ => []
  | ct :: cts, [] => ct :: generalizeTokens cts []
  | ct :: cts, t :: ts => (if ct ≠ t then "<*>" else ct) :: generalizeTokens cts ts

/-- `updateCluster`. -/
def updateCluster (c : LogCluster) (tokens : List String) (ts : Int) : LogCluster :=
  let newTokens := generalizeTokens c.tokens tokens
  { c with
    size := c.size + 1
    lastSeen := ts
    tokens := newTokens
    template := String.intercalate " " newTokens }

/-- The cluster record allocated by `createCluster`: id from the
creation tokens, `SampleLogs` allocated empty (`make([]string, 0, 5)`). -/
def newLogCluster (tokens : List String) (ts : Int) : LogCluster :=
  { id := generateClusterID tokens
    template := createTemplate tokens
    tokens := tokens
    size := 1
    firstSeen := ts
    lastSeen := ts
    sampleLogs := [] }

/-- `createCluster`: allocate the cluster, register it in the id map,
install it in the tree. -/
def createCluster (dt : DrainTree) (tokens : List String) (ts : Int) :
    DrainTree × LogCluster :=
  let c := newLogCluster tokens ts
  let idx := dt.store.length
  ({ dt with
      store := dt.store ++ [c]
      clustersMap := assocSet dt.clustersMap c.id idx
      root := addToTree dt.root idx tokens 1 dt.maxDepth }, c)

/-- The loop of `extractVariables`: `var_<k> ↦ logTokens[i]` for every
template position `i` holding the wildcard with `i < len(logTokens)`. -/
def extractVariablesGo : List String → List String → Nat → Nat → List (String × String)
  | [], _, _, _ => []
  | t :: rest, logTokens, i, ctr =>
    if t = "<*>" then
      match logTokens[i]? with
      | some v => ("var_" ++ toString ctr, v) :: extractVariablesGo rest logTokens (i + 1) (ctr + 1)
      | none => extractVariablesGo rest logTokens (i + 1) ctr
    else extractVariablesGo rest logTokens (i + 1) ctr

/-- `extractVariables`. -/
def extractVariables (template logContent : String) : List (String × String) :=
  extractVariablesGo (goFields template) (goFields logContent) 0 0

/-- The miss path of `Parse`: create the cluster, report `IsNew`. -/
def parseMiss (dt : DrainTree) (processedTokens : List String)
    (logContent : String) (ts : Int) : DrainTree × ParseResult :=
  let res := createCluster dt processedTokens ts
  (res.1, { templateId := res.2.id
            template := res.2.template
            vars := extractVariables res.2.template logContent
            isNew := true })

/-- The hit path of `Parse`: generalize the matched cluster in place. -/
def parseHit (dt : DrainTree) (idx : Nat) (c : LogCluster)
    (processedTokens : List String) (logContent : String) (ts : Int) :
    DrainTree × ParseResult :=
  let c' := updateCluster c processedTokens ts
  ({ dt with store := dt.store.set idx c' },
   { templateId := c'.id
     template := c'.template
     vars := extractVariables c'.template logContent
     isNew := false })

/-- `Parse`.  A `treeSearch` hit returns a store index; an index outside
the store cannot occur (indices are allocated by `createCluster` and the
store only grows) and is treated as a miss. -/
def parse (dt : DrainTree) (logContent : String) (ts : Int) :
    Except String (DrainTree × ParseResult) :=
  let tokens := goFields logContent
  if tokens.isEmpty then .error "empty log content"
  else
    let processedTokens := preprocessTokens tokens
    match treeSearch dt.store dt.root processedTokens 1 dt.maxDepth dt.simThreshold with
    | some idx =>
      match dt.store[idx]? with
      | some c => .ok (parseHit dt idx c processedTokens logContent ts)
      | none => .ok (parseMiss dt processedTokens logContent ts)
    | none => .ok (parseMiss dt processedTokens logContent ts)

/-- Parse a batch, collecting the per-line results (`none` for rejected
lines; rejection leaves the tree untouched). -/
def parseAll (dt : DrainTree) : List (String × Int) → DrainTree × List (Option ParseResult)
  | [] => (dt, [])
  | (l, ts) :: rest =>
    match parse dt l ts with
    | .ok (dt', r) =>
      let (dtF, rs) := parseAll dt' rest
      (dtF, some r :: rs)
    | .error _ =>
      let (dtF, rs) := parseAll dt rest
      (dtF, none :: rs)

/-- The tree state after a batch of `Parse` calls. -/
def parseFold (dt : DrainTree) (ls : List (String × Int)) : DrainTree :=
  ls.foldl (fun dt lt =>
    match parse dt lt.1 lt.2 with
    | .ok (dt', _) => dt'
    | .error _ => dt) dt

/-! ## PII redactor (`pii` package)

`Redactor.Redact` iterates `r.patterns`, a Go map, applying
`ReplaceAllString` per pattern.  Go map iteration order is unspecified
(and randomized), so the embedding takes the pattern order as an
explicit parameter; every permutation of the four default patterns is a
possible execution of the Go code.  The default configuration enables
email, phone, ssn and credit_card (IPv4/IPv6 are off). -/

def piiEmail : (MSt → List MSt) × String := (patEmail, "[EMAIL_REDACTED]")
def piiPhone : (MSt → List MSt) × String := (patPhone, "[PHONE_REDACTED]")
def piiSSN : (MSt → List MSt) × String := (patSSN, "[SSN_REDACTED]")
def piiCreditCard : (MSt → List MSt) × String := (patCreditCard, "[CC_REDACTED]")

/-- `Redact` with the pattern-application order made explicit. -/
def redact (pats : List ((MSt → List MSt) × String)) (text : String) : String :=
  pats.foldl (fun acc p => replaceAll p.1 p.2 acc) text

/-- The four default patterns in `NewRedactor` insertion order. -/
def redactInsertionOrder : List ((MSt → List MSt) × String) :=
  [piiEmail, piiPhone, piiSSN, piiCreditCard]

/-- Another permutation of the same four patterns (Go map iteration may
produce it): ssn before email. -/
def redactSsnFirstOrder : List ((MSt → List MSt) × String) :=
  [piiSSN, piiPhone, piiCreditCard, piiEmail]

/-! ## Anomaly baseline (`cmd/anomaly/main.go`)

`calculateBaseline` receives the `TimePoint` slice of a series; only
the `Value` fields enter the computation, so the embedding takes the
list of values.  `math.Sqrt` is modelled by carrying the squared
standard deviation `stdDevSq`: for `v ≥ 0`, `sqrt v = 0 ↔ v = 0` and
`1 ≤ sqrt v ↔ 1 ≤ v`, so the `if stdDev == 0 { stdDev = 1 }` clamp and
every comparison against `1.0` transfer exactly. -/

structure GoBaseline where
  mean : ℚ
  stdDevSq : ℚ
  count : Int
  deriving DecidableEq, Repr

def meanOf (values : List ℚ) : ℚ := values.sum / (values.length : ℚ)

/-- `sumSquares / n`, the square of the computed standard deviation. -/
def varianceOf (values : List ℚ) : ℚ :=
  ((values.map (fun v => (v - meanOf values) ^ 2)).sum) / (values.length : ℚ)

/-- `calculateBaseline`. -/
def calculateBaseline (values : List ℚ) : GoBaseline :=
  if values.isEmpty then { mean := 0, stdDevSq := 1, count := 0 }
  else
    { mean := meanOf values
      stdDevSq := if varianceOf values = 0 then 1 else varianceOf values
      count := (values.length : Int) }

/-- `RecordError` appends points with `Value: 1`, so an error series
always has this shape. -/
def errorSeriesValues (n : Nat) : List ℚ := List.replicate n 1

/-! ## Worker pool (`internal/pipeline/worker.go`)

Operational model.  The channel contents are irrelevant to the claims,
so the task queue is its length.  Each event is one atomic step of the
Go program; for `Submit`, the events are the branches of its `select`:

  * `submitOk` — the send case, chosen while the tasks channel is open
    and has buffer space (Go chooses uniformly among ready cases, so
    this is selectable even after `cancel`);
  * `submitCanceled` — the `ctx.Done()` case (returns false), ready
    once the context is cancelled;
  * `submitFull` — the `default` branch (increments `Dropped`, returns
    false), taken only when no case is ready: channel open, buffer
    full, not cancelled;
  * `submitClosedPanic` — the send case on a closed channel: a send on
    a closed channel proceeds by panicking, so after `Stop` has closed
    `tasks` this case is selectable and the program panics.

`workerOk` / `workerErr` are one worker iteration (handler success /
failure); workers run only until `Stop`'s `wg.Wait`, hence before
`closeChans`.  `Stop()` is the sequence `cancel` then `closeChans`.
`accepted` and `submits` are ghost counters of accepted / total
`Submit` calls. -/

inductive PoolEvent where
  | submitOk | submitFull | submitCanceled | submitClosedPanic
  | workerOk | workerErr
  | cancel | closeChans
  deriving DecidableEq, Repr

structure PoolState where
  canceled : Bool
  closed : Bool
  panicked : Bool
  queue : Nat
  bufferSize : Nat
  processed : Nat
  errors : Nat
  dropped : Nat
  accepted : Nat
  submits : Nat
  deriving DecidableEq, Repr

def poolInit (buf : Nat) : PoolState :=
  { canceled := false
    closed := false
    panicked := false
    queue := 0
    bufferSize := buf
    processed := 0
    errors := 0
    dropped := 0
    accepted := 0
    submits := 0 }

def poolStep (st : PoolState) (e : PoolEvent) : Option PoolState :=
  if st.panicked then none
  else
    match e with
    | .submitOk =>
      if !st.closed && st.queue < st.bufferSize then
        some { st with
          queue := st.queue + 1
          accepted := st.accepted + 1
          submits := st.submits + 1 }
      else none
    | .submitCanceled =>
      if st.canceled then some { st with submits := st.submits + 1 } else none
    | .submitFull =>
      if !st.closed && !st.canceled && st.bufferSize ≤ st.queue then
        some { st with
          dropped := st.dropped + 1
          submits := st.submits + 1 }
      else none
    | .submitClosedPanic =>
      if st.closed then
        some { st with
          panicked := true
          submits := st.submits + 1 }
      else none
    | .workerOk =>
      if !st.closed && 0 < st.queue then
        some { st with
          queue := st.queue - 1
          processed := st.processed + 1 }
      else none
    | .workerErr =>
      if !st.closed && 0 < st.queue then
        some { st with
          queue := st.queue - 1
          errors := st.errors + 1 }
      else none
    | .cancel => some { st with canceled := true }
    | .closeChans =>
      if st.canceled then some { st with closed := true } else none

/-- Run a schedule of events; `none` when an event was not enabled. -/
def poolRun (st : PoolState) : List PoolEvent → Option PoolState
  | [] => some st
  | e :: rest =>
    match poolStep st e with
    | some st' => poolRun st' rest
    | none => none

/-- The pool after `Stop()` has completed: cancelled and channels
closed. -/
def poolStopped (st : PoolState) : Prop := st.canceled = true ∧ st.closed = true

/-! ## Lemmas about the embedded operations -/

lemma updateCluster_tokens (c : LogCluster) (tokens : List String) (ts : Int) :
    (updateCluster c tokens ts).tokens = generalizeTokens c.tokens tokens := rfl

lemma updateCluster_id (c : LogCluster) (tokens : List String) (ts : Int) :
    (updateCluster c tokens ts).id = c.id := rfl

lemma updateCluster_sampleLogs (c : LogCluster) (tokens : List String) (ts : Int) :
    (updateCluster c tokens ts).sampleLogs = c.sampleLogs := rfl

/-- Position-wise monotonicity of the generalization loop: a wildcard
stays a wildcard. -/
lemma generalizeTokens_wildcard :
    ∀ (cts tks : List String) (i : Nat),
      cts[i]? = some "<*>" → (generalizeTokens cts tks)[i]? = some "<*>" := by
  intro cts
  induction cts with
  | nil => intro tks i h; simp at h
  | cons ct rest ih =>
    intro tks i h
    cases tks with
    | nil =>
      cases i with
      | zero => simpa [generalizeTokens] using h
      | succ n =>
        simp only [generalizeTokens, List.getElem?_cons_succ] at h ⊢
        exact ih [] n h
    | cons t ts =>
      cases i with
      | zero =>
        simp only [List.getElem?_cons_zero] at h
        obtain rfl := Option.some.inj h
        simp only [generalizeTokens, List.getElem?_cons_zero]
        split <;> rfl
      | succ n =>
        simp only [generalizeTokens, List.getElem?_cons_succ] at h ⊢
        exact ih ts n h

/-- Case analysis of a successful `parse`: either a hit on a cluster
found by `treeSearch`, or a miss that created a cluster. -/
lemma parse_ok_cases {dt : DrainTree} {line : String} {ts : Int}
    {dt' : DrainTree} {r : ParseResult}
    (h : parse dt line ts = Except.ok (dt', r)) :
    (∃ idx c,
        treeSearch dt.store dt.root (preprocessTokens (goFields line)) 1
          dt.maxDepth dt.simThreshold = some idx ∧
        dt.store[idx]? = some c ∧
        (dt', r) = parseHit dt idx c (preprocessTokens (goFields line)) line ts) ∨
    ((dt', r) = parseMiss dt (preprocessTokens (goFields line)) line ts) := by
  simp only [parse] at h
  split at h
  · exact absurd h (by simp)
  · split at h
    · rename_i idx heq
      split at h
      · rename_i c hc
        exact Or.inl ⟨idx, c, heq, hc, (Except.ok.inj h).symm⟩
      · exact Or.inr (Except.ok.inj h).symm
    · exact Or.inr (Except.ok.inj h).symm

lemma parseHit_fst_store (dt : DrainTree) (idx : Nat) (c : LogCluster)
    (P : List String) (line : String) (ts : Int) :
    (parseHit dt idx c P line ts).1.store = dt.store.set idx (updateCluster c P ts) := rfl

lemma parseMiss_fst_store (dt : DrainTree) (P : List String) (line : String) (ts : Int) :
    (parseMiss dt P line ts).1.store = dt.store ++ [newLogCluster P ts] := rfl

/-- A successful parse changes the store by one in-place generalization
or one appended cluster; every pre-existing slot keeps its position and
either keeps its cluster or replaces it by its own generalization. -/
lemma parse_store_slots {dt : DrainTree} {line : String} {ts : Int}
    {dt' : DrainTree} {r : ParseResult}
    (h : parse dt line ts = Except.ok (dt', r))
    {j : Nat} {c : LogCluster} (hj : dt.store[j]? = some c) :
    dt'.store[j]? = some c ∨
    dt'.store[j]? = some (updateCluster c (preprocessTokens (goFields line)) ts) := by
  rcases parse_ok_cases h with ⟨idx, c0, _, hc0, hpair⟩ | hpair
  · have hst : dt'.store = dt.store.set idx
        (updateCluster c0 (preprocessTokens (goFields line)) ts) :=
      (congrArg (fun p => p.1.store) hpair).trans rfl
    by_cases hij : idx = j
    · subst hij
      have hlt : idx < dt.store.length := (List.getElem?_eq_some.mp hj).1
      obtain rfl : c0 = c := Option.some.inj (hc0.symm.trans hj)
      right
      rw [hst, List.getElem?_set_self hlt]
    · left
      rw [hst, List.getElem?_set_ne hij]
      exact hj
  · have hst : dt'.store = dt.store ++
        [newLogCluster (preprocessTokens (goFields line)) ts] :=
      (congrArg (fun p => p.1.store) hpair).trans rfl
    have hlt : j < dt.store.length := (List.getElem?_eq_some.mp hj).1
    left
    rw [hst, List.getElem?_append, if_pos hlt]
    exact hj

/-! ## C1 — monotone generalization -/

/-- C1: once a cluster position holds the wildcard sentinel, it still
holds it after any `updateCluster`, and hence after any successful
`Parse` step: wildcards never revert to literals. -/
theorem drain_monotone_generalization :
    (∀ (c : LogCluster) (tokens : List String) (ts : Int) (i : Nat),
        c.tokens[i]? = some "<*>" →
        (updateCluster c tokens ts).tokens[i]? = some "<*>") ∧
    (∀ (dt : DrainTree) (line : String) (ts : Int) (dt' : DrainTree)
        (r : ParseResult) (j i : Nat) (c : LogCluster),
        parse dt line ts = Except.ok (dt', r) →
        dt.store[j]? = some c →
        c.tokens[i]? = some "<*>" →
        ∃ c', dt'.store[j]? = some c' ∧ c'.tokens[i]? = some "<*>") := by
  constructor
  · intro c tokens ts i h
    rw [updateCluster_tokens]
    exact generalizeTokens_wildcard c.tokens tokens i h
  · intro dt line ts dt' r j i c hp hj hi
    rcases parse_store_slots hp hj with hkeep | hupd
    · exact ⟨c, hkeep, hi⟩
    · refine ⟨_, hupd, ?_⟩
      rw [updateCluster_tokens]
      exact generalizeTokens_wildcard c.tokens _ i hi

/-- A one-cluster tree used to instantiate the parse-level theorems:
`"a 1"` preprocesses to `["a", "<*>"]`. -/
def c1tree : DrainTree := parseFold (newDrainTree defaultConfig) [("a 1", 0)]

/-- The concrete result of re-parsing a matching line in `c1tree`. -/
def c1pair : DrainTree × ParseResult :=
  match parse c1tree "a 2" 5 with
  | .ok p => p
  | .error _ => (c1tree, { templateId := "", template := "", vars := [], isNew := false })

/-- The cluster stored in `c1tree`. -/
def c1clu : LogCluster := (c1tree.store[0]?).getD dummyCluster

theorem drain_monotone_generalization_witness :
    ∃ c', c1pair.1.store[0]? = some c' ∧ c'.tokens[1]? = some "<*>" :=
  drain_monotone_generalization.2 c1tree "a 2" 5 c1pair.1 c1pair.2 0 1 c1clu
    (by with_unfolding_all rfl) (by rfl) (by rfl)

/-! ## C4 — template-id derivation and stability -/

/-- C4: a cluster's id is `"tmpl_"` followed by the lowercase-hex
FNV-1a-64 of the preprocessed creation tokens joined by single spaces;
`updateCluster` never touches the id, and every successful `Parse`
leaves the id of every pre-existing cluster unchanged; a newly created
cluster reports exactly the id derived from the preprocessed tokens. -/
theorem drain_template_id_stability :
    (∀ (tokens : List String) (ts : Int),
        (newLogCluster tokens ts).id =
          "tmpl_" ++ natToHex (fnv1a64 (strBytes (String.intercalate " " tokens)))) ∧
    (∀ (c : LogCluster) (tokens : List String) (ts : Int),
        (updateCluster c tokens ts).id = c.id) ∧
    (∀ (dt : DrainTree) (line : String) (ts : Int) (dt' : DrainTree)
        (r : ParseResult) (j : Nat) (c : LogCluster),
        parse dt line ts = Except.ok (dt', r) →
        dt.store[j]? = some c →
        ∃ c', dt'.store[j]? = some c' ∧ c'.id = c.id) ∧
    (∀ (dt : DrainTree) (line : String) (ts : Int) (dt' : DrainTree)
        (r : ParseResult),
        parse dt line ts = Except.ok (dt', r) → r.isNew = true →
        r.templateId = generateClusterID (preprocessTokens (goFields line))) := by
  refine ⟨fun tokens ts => rfl, fun c tokens ts => rfl, ?_, ?_⟩
  · intro dt line ts dt' r j c hp hj
    rcases parse_store_slots hp hj with hkeep | hupd
    · exact ⟨c, hkeep, rfl⟩
    · exact ⟨_, hupd, updateCluster_id c _ ts⟩
  · intro dt line ts dt' r hp hnew
    rcases parse_ok_cases hp with ⟨idx, c0, _, _, hpair⟩ | hpair
    · have : r.isNew = false :=
        (congrArg (fun p => p.2.isNew) hpair).trans rfl
      rw [this] at hnew
      exact absurd hnew (by simp)
    · rw [congrArg (fun p => p.2.templateId) hpair]
      rfl

/-- The result of the cluster-creating parse on a fresh tree. -/
def c4pair : DrainTree × ParseResult :=
  match parse (newDrainTree defaultConfig) "a 1" 0 with
  | .ok p => p
  | .error _ =>
    (newDrainTree defaultConfig,
     { templateId := "", template := "", vars := [], isNew := false })

theorem drain_template_id_stability_witness :
    (∃ c', c1pair.1.store[0]? = some c' ∧ c'.id = c1clu.id) ∧
    c4pair.2.templateId = generateClusterID (preprocessTokens (goFields "a 1")) :=
  ⟨drain_template_id_stability.2.2.1 c1tree "a 2" 5 c1pair.1 c1pair.2 0 c1clu
      (by with_unfolding_all rfl) (by rfl),
   drain_template_id_stability.2.2.2 (newDrainTree defaultConfig) "a 1" 0
      c4pair.1 c4pair.2 (by with_unfolding_all rfl) (by with_unfolding_all rfl)⟩

/-! ## C7 — parse failure semantics -/

/-- C7: `Parse` fails exactly on lines whose tokenization is empty
(the `InvalidInput` case, message `"empty log content"`), and succeeds
with a `ParseResult` on every other line. -/
theorem parse_failure_semantics :
    ∀ (dt : DrainTree) (line : String) (ts : Int),
      ((∃ e, parse dt line ts = Except.error e) ↔ goFields line = []) ∧
      (goFields line ≠ [] →
        ∃ dt' r, parse dt line ts = Except.ok (dt', r)) := by
  intro dt line ts
  cases hgf : goFields line with
  | nil =>
    constructor
    · exact ⟨fun _ => rfl, fun _ => ⟨"empty log content", by simp [parse, hgf]⟩⟩
    · intro hne; exact absurd rfl hne
  | cons t rest =>
    constructor
    · constructor
      · rintro ⟨e, he⟩
        simp only [parse, hgf, List.isEmpty_cons, Bool.false_eq_true, if_false] at he
        split at he <;> first
          | exact Except.noConfusion he
          | (split at he <;> exact Except.noConfusion he)
      · intro h; exact absurd h (by simp)
    · intro _
      simp only [parse, hgf, List.isEmpty_cons, Bool.false_eq_true, if_false]
      split
      · split
        · exact ⟨_, _, rfl⟩
        · exact ⟨_, _, rfl⟩
      · exact ⟨_, _, rfl⟩

theorem parse_failure_semantics_witness :
    (∃ e, parse (newDrainTree defaultConfig) "   " 0 = Except.error e) ∧
    (∃ dt' r, parse (newDrainTree defaultConfig) "x y" 0 = Except.ok (dt', r)) :=
  ⟨(parse_failure_semantics (newDrainTree defaultConfig) "   " 0).1.mpr (by rfl),
   (parse_failure_semantics (newDrainTree defaultConfig) "x y" 0).2 (by decide)⟩

/-! ## C10 — sample logs stay empty -/

lemma parse_sampleLogs_inv {dt : DrainTree} {line : String} {ts : Int}
    {dt' : DrainTree} {r : ParseResult}
    (h : parse dt line ts = Except.ok (dt', r))
    (hin : ∀ c ∈ dt.store, c.sampleLogs = []) :
    ∀ c ∈ dt'.store, c.sampleLogs = [] := by
  rcases parse_ok_cases h with ⟨idx, c0, _, hc0, hpair⟩ | hpair
  · have hst : dt'.store = dt.store.set idx
        (updateCluster c0 (preprocessTokens (goFields line)) ts) :=
      (congrArg (fun p => p.1.store) hpair).trans rfl
    intro c hc
    rw [hst] at hc
    rcases List.mem_or_eq_of_mem_set hc with hmem | rfl
    · exact hin c hmem
    · rw [updateCluster_sampleLogs]
      obtain ⟨hlt, heq⟩ := List.getElem?_eq_some.mp hc0
      exact hin c0 (heq ▸ List.getElem_mem hlt)
  · have hst : dt'.store = dt.store ++
        [newLogCluster (preprocessTokens (goFields line)) ts] :=
      (congrArg (fun p => p.1.store) hpair).trans rfl
    intro c hc
    rw [hst] at hc
    rcases List.mem_append.mp hc with hmem | hmem
    · exact hin c hmem
    · rw [List.mem_singleton.mp hmem]
      rfl

lemma parseFold_cons (dt : DrainTree) (x : String × Int) (ls : List (String × Int)) :
    parseFold dt (x :: ls) =
      parseFold (match parse dt x.1 x.2 with
                 | .ok (dt', _) => dt'
                 | .error _ => dt) ls := rfl

lemma parseFold_sampleLogs_inv :
    ∀ (ls : List (String × Int)) (dt : DrainTree),
      (∀ c ∈ dt.store, c.sampleLogs = []) →
      ∀ c ∈ (parseFold dt ls).store, c.sampleLogs = [] := by
  intro ls
  induction ls with
  | nil => intro dt h; simpa [parseFold] using h
  | cons x rest ih =>
    intro dt h
    rw [parseFold_cons]
    cases hp : parse dt x.1 x.2 with
    | ok p =>
      simp only [hp]
      exact ih p.1 (parse_sampleLogs_inv hp h)
    | error e =>
      simp only [hp]
      exact ih dt h

/-- C10: the `SampleLogs` slice of every cluster is allocated empty and
no tree operation ever appends to it, so after any batch of `Parse`
calls every cluster's sample list is still empty. -/
theorem drain_sample_logs_empty :
    ∀ (cfg : DrainConfig) (ls : List (String × Int)) (c : LogCluster),
      c ∈ (parseFold (newDrainTree cfg) ls).store → c.sampleLogs = [] := by
  intro cfg ls c hc
  refine parseFold_sampleLogs_inv ls (newDrainTree cfg) ?_ c hc
  intro c' hm
  simp [newDrainTree] at hm

/-- The single cluster produced by one parse on a fresh default tree. -/
def c10clu : LogCluster :=
  ((parseFold (newDrainTree defaultConfig) [("a b", 1)]).store).headD dummyCluster

theorem drain_sample_logs_empty_witness : c10clu.sampleLogs = [] :=
  drain_sample_logs_empty defaultConfig [("a b", 1)] c10clu
    (by with_unfolding_all decide)

/-! ## C3 — the capacity guard that `addToTree` does not have

`addToTree` never consults `maxChildren`: it always inserts along the
exact-token edge, creating it if absent.  With `maxChildren = 2`, three
clusters with distinct first tokens give the `len_2` node three
children and no wildcard child. -/

def c3cfg : DrainConfig :=
  { maxDepth := 4
    simThreshold := 1/2
    maxChildren := 2
    maxClusters := 20
    maxSampleLogs := 5 }

def c3tree : DrainTree :=
  parseFold (newDrainTree c3cfg) [("alpha x", 1), ("beta x", 2), ("gamma x", 3)]

def c3node : ClusterNode :=
  (List.lookup (lenKey 2) c3tree.root.keyToChild).getD (ClusterNode.mk [] [] 0)

/-- C3: evaluation of the code at the failing input.  The tree was
configured with `max_children = 2`, yet after three parses the
intermediate `len_2` node has the three exact-token children
`alpha`, `beta`, `gamma` — exceeding `max_children` — and no wildcard
child `<*>` was created: the claimed capacity guard does not exist in
`addToTree`. -/
theorem drain_addToTree_capacity_violation :
    c3tree.maxChildren = 2 ∧
    c3node.keyToChild.map (fun p => p.1) = ["alpha", "beta", "gamma"] ∧
    2 < (c3node.keyToChild.map (fun p => p.1)).length ∧
    (List.lookup "<*>" c3node.keyToChild).isNone = true := by
  with_unfolding_all decide

/-! ## C8 — the grouping scenario -/

def c8lines : List (String × Int) :=
  [("Error connecting to database at 192.168.1.1:5432", 1),
   ("Error connecting to database at 192.168.1.2:5432", 2),
   ("Error connecting to database at 10.0.0.1:5432", 3)]

def c8run : DrainTree × List (Option ParseResult) :=
  parseAll (newDrainTree defaultConfig) c8lines

/-- Does the (optional) parse result bind some variable to `v`? -/
def hasVarValue (r? : Option (Option ParseResult)) (v : String) : Bool :=
  match r? with
  | some (some r) => r.vars.any (fun kv => kv.2 == v)
  | _ => false

set_option maxRecDepth 100000 in
/-- C8: feeding the three database-error lines into a fresh
default-configured tree yields `is_new = [true, false, false]`, exactly
one cluster of size 3, and the second and third results each bind a
variable to the original IP:port token of their line. -/
theorem drain_grouping_scenario :
    c8run.2.map (Option.map (fun r => r.isNew)) =
      [some true, some false, some false] ∧
    c8run.1.clustersMap.length = 1 ∧
    c8run.1.store.length = 1 ∧
    (c8run.1.store.headD dummyCluster).size = 3 ∧
    hasVarValue c8run.2[1]? "192.168.1.2:5432" = true ∧
    hasVarValue c8run.2[2]? "10.0.0.1:5432" = true := by
  with_unfolding_all decide

/-! ## C5 — baseline standard-deviation clamping -/

/-- Ten volume observations alternating between 0 and 1: mean `1/2`,
variance `1/4`, so the computed standard deviation is `1/2 < 1`. -/
def c5points : List ℚ := [0, 1, 0, 1, 0, 1, 0, 1, 0, 1]

/-- C5 counterexample: the code clamps only `stdDev == 0`, not upward
to 1.0.  For this ten-point series the squared standard deviation is
`1/4`, i.e. `std_dev = 1/2 < 1.0`, refuting
`std_dev = max(σ, 1.0) ≥ 1.0`. -/
theorem anomaly_stddev_floor_counterexample :
    10 ≤ c5points.length ∧
    (calculateBaseline c5points).stdDevSq = 1/4 ∧
    (calculateBaseline c5points).stdDevSq < 1 := by
  with_unfolding_all decide

lemma varianceOf_nonneg (values : List ℚ) : 0 ≤ varianceOf values := by
  unfold varianceOf
  apply div_nonneg
  · apply List.sum_nonneg
    intro x hx
    obtain ⟨v, _, rfl⟩ := List.mem_map.mp hx
    positivity
  · positivity

/-- C5 amended: the baseline's standard deviation is set to 1.0 exactly
when σ = 0 (in particular it is always positive, so the z-score divisor
is never zero), but it is *not* `max(σ, 1.0)`: a nonzero σ is kept even
when it is below 1.0.  For error series — every recorded point has
value 1 — σ is 0 and the cached `std_dev` is exactly 1.  (Stated on the
squared standard deviation; `sqrt` is monotone and `sqrt v = 0 ↔ v = 0`.) -/
theorem anomaly_stddev_clamping :
    (∀ values : List ℚ, 0 < (calculateBaseline values).stdDevSq) ∧
    (∀ values : List ℚ, varianceOf values = 0 →
        (calculateBaseline values).stdDevSq = 1) ∧
    (∀ values : List ℚ, values ≠ [] → varianceOf values ≠ 0 →
        (calculateBaseline values).stdDevSq = varianceOf values) ∧
    (∀ n : Nat, 0 < n →
        (calculateBaseline (errorSeriesValues n)).stdDevSq = 1) := by
  have hvar0 : ∀ values : List ℚ, varianceOf values = 0 →
      (calculateBaseline values).stdDevSq = 1 := by
    intro values hv
    unfold calculateBaseline
    split
    · rfl
    · simp [hv]
  refine ⟨?_, hvar0, ?_, ?_⟩
  · intro values
    unfold calculateBaseline
    split
    · norm_num
    · simp only
      split
      · norm_num
      · rename_i hne
        exact lt_of_le_of_ne (varianceOf_nonneg values) (Ne.symm hne)
  · intro values hne hv
    unfold calculateBaseline
    split
    · rename_i hb
      exact absurd (by simpa [List.isEmpty_iff] using hb) hne
    · simp [hv]
  · intro n hn
    apply hvar0
    unfold varianceOf meanOf errorSeriesValues
    have hsum : (List.replicate n (1 : ℚ)).sum = (n : ℚ) := by
      simp [List.sum_replicate]
    have hn' : (n : ℚ) ≠ 0 := Nat.cast_ne_zero.mpr hn.ne'
    simp [hsum, List.map_replicate, div_self hn']

theorem anomaly_stddev_clamping_witness :
    0 < (calculateBaseline c5points).stdDevSq ∧
    (calculateBaseline (errorSeriesValues 10)).stdDevSq = 1 :=
  ⟨anomaly_stddev_clamping.1 c5points,
   anomaly_stddev_clamping.2.2.2 10 (by decide)⟩

/-! ## C6 — pool stop safety and metrics accounting -/

/-- The deterministic run refuting the metrics inequality: one pool of
buffer size 1 with no worker scheduled, three `Submit` calls.  The
first is accepted, the next two take the `default` branch and increment
`Dropped`. -/
def c6state : PoolState :=
  (poolRun (poolInit 1) [.submitOk, .submitFull, .submitFull]).getD (poolInit 1)

/-- C6 counterexample: `Dropped` counts *rejected* (buffer-full)
submits, so after one accepted and two dropped submits
`processed + errors + dropped = 2 > 1 = #accepted`, refuting
`processed + errors + dropped ≤ #submits_accepted`.  Moreover, after
`Stop()` (cancel, then close) the send case of `Submit`'s select is a
send on a closed channel: choosing it panics, so an execution exists in
which a post-stop `Submit` does not return false. -/
theorem pool_metrics_counterexample :
    poolRun (poolInit 1) [.submitOk, .submitFull, .submitFull] = some c6state ∧
    c6state.accepted = 1 ∧
    c6state.processed = 0 ∧ c6state.errors = 0 ∧ c6state.dropped = 2 ∧
    c6state.accepted < c6state.processed + c6state.errors + c6state.dropped ∧
    (poolRun (poolInit 1) [.cancel, .closeChans, .submitClosedPanic]).map
        (fun st => st.panicked) = some true := by
  decide

/-- The conserved quantities of the pool model. -/
def poolInv (st : PoolState) : Prop :=
  st.processed + st.errors + st.queue = st.accepted ∧
  st.accepted + st.dropped ≤ st.submits

lemma poolStep_inv {st st' : PoolState} {e : PoolEvent}
    (hi : poolInv st) (h : poolStep st e = some st') : poolInv st' := by
  obtain ⟨h1, h2⟩ := hi
  unfold poolStep at h
  split at h
  · exact Option.noConfusion h
  · cases e <;> simp only at h <;> (try split at h) <;>
      first
        | exact Option.noConfusion h
        | (obtain rfl := Option.some.inj h
           rename_i hcond
           simp only [Bool.and_eq_true, Bool.not_eq_true', decide_eq_true_eq] at hcond
           unfold poolInv
           dsimp only
           omega)
        | (obtain rfl := Option.some.inj h
           unfold poolInv
           dsimp only
           omega)

lemma poolRun_inv :
    ∀ (evs : List PoolEvent) (st : PoolState), poolInv st →
      ∀ st', poolRun st evs = some st' → poolInv st' := by
  intro evs
  induction evs with
  | nil =>
    intro st hi st' h
    obtain rfl := Option.some.inj h
    exact hi
  | cons e rest ih =>
    intro st hi st' h
    unfold poolRun at h
    split at h
    · rename_i stm hstep
      exact ih stm (poolStep_inv hi hstep) st' h
    · exact Option.noConfusion h

/-- C6 amended: after `stop()` has completed, a `Submit` can no longer
enqueue (the send-on-open and default branches are unreachable) and
either returns false (the `Done` branch) or panics (the send on the
closed channel); and on every schedule the metrics satisfy
`processed + errors ≤ #accepted submits` and
`processed + errors + dropped ≤ #total Submit calls`. -/
theorem pool_stop_safety_amended :
    (∀ st : PoolState, poolStopped st → st.panicked = false →
        poolStep st .submitOk = none ∧
        poolStep st .submitFull = none ∧
        (∃ st', poolStep st .submitCanceled = some st') ∧
        (∃ st', poolStep st .submitClosedPanic = some st' ∧
                st'.panicked = true)) ∧
    (∀ (evs : List PoolEvent) (buf : Nat) (st : PoolState),
        poolRun (poolInit buf) evs = some st →
        st.processed + st.errors ≤ st.accepted ∧
        st.processed + st.errors + st.dropped ≤ st.submits) := by
  constructor
  · rintro st ⟨hc, hcl⟩ hp
    refine ⟨?_, ?_, ?_, ?_⟩
    · simp [poolStep, hp, hc, hcl]
    · simp [poolStep, hp, hc, hcl]
    · exact ⟨{ st with submits := st.submits + 1 }, by simp [poolStep, hp, hc]⟩
    · exact ⟨{ st with panicked := true, submits := st.submits + 1 },
        by simp [poolStep, hp, hcl], rfl⟩
  · intro evs buf st h
    have hinit : poolInv (poolInit buf) := by constructor <;> simp [poolInit]
    obtain ⟨h1, h2⟩ := poolRun_inv evs (poolInit buf) hinit st h
    omega

/-- The state reached by `Stop()` on a fresh pool. -/
def c6stopped : PoolState :=
  (poolRun (poolInit 1) [.cancel, .closeChans]).getD (poolInit 1)

theorem pool_stop_safety_amended_witness :
    (poolStep c6stopped .submitOk = none ∧
     poolStep c6stopped .submitFull = none ∧
     (∃ st', poolStep c6stopped .submitCanceled = some st') ∧
     (∃ st', poolStep c6stopped .submitClosedPanic = some st' ∧
             st'.panicked = true)) ∧
    (c6state.processed + c6state.errors ≤ c6state.accepted ∧
     c6state.processed + c6state.errors + c6state.dropped ≤ c6state.submits) :=
  ⟨pool_stop_safety_amended.1 c6stopped ⟨by decide, by decide⟩ (by decide),
   pool_stop_safety_amended.2 [.submitOk, .submitFull, .submitFull] 1 c6state
     (by decide)⟩

/-! ## C9 — redactor idempotence is order-dependent -/

/-- On `"a@x.cc999-88-7777"` the e-mail pattern consumes `"a@x.cc"`;
only after that replacement does `"999-88-7777"` acquire the leading
word boundary (the `]` of the placeholder) that the SSN pattern needs.
With the SSN pattern applied before the e-mail pattern — a possible Go
map iteration order — the SSN match is only found by the *second*
`Redact` call. -/
def c9x : String := "a@x.cc999-88-7777"

/-- C9 counterexample: with the default built-in patterns applied in
the order ssn, phone, credit_card, email (a possible iteration order of
the `r.patterns` map), a second redaction changes the result:
idempotence fails. -/
theorem redactor_idempotence_counterexample :
    redact redactSsnFirstOrder (redact redactSsnFirstOrder c9x) ≠
      redact redactSsnFirstOrder c9x := by
  decide

/-- C9 amended: `Redact` applies its patterns in Go map iteration
order, which is unspecified; idempotence depends on that order.  On the
exhibited input, the insertion order (email first) reaches a fixed
point in one pass, while any order applying ssn before email leaves an
SSN match for the second pass. -/
theorem redactor_idempotence_order_dependent :
    redact redactInsertionOrder (redact redactInsertionOrder c9x) =
      redact redactInsertionOrder c9x ∧
    redact redactSsnFirstOrder c9x = "[EMAIL_REDACTED]999-88-7777" ∧
    redact redactSsnFirstOrder (redact redactSsnFirstOrder c9x) =
      "[EMAIL_REDACTED][SSN_REDACTED]" := by
  decide

/-! ## C2 — `findBestMatch` selection

Specification predicates: an index is *eligible* for a token sequence
when it denotes a stored cluster of equal token length; `simAt` is the
similarity score the loop computes for it. -/

def eligibleCluster (store : List LogCluster) (tokens : List String) (i : Nat) : Prop :=
  ∃ c, store[i]? = some c ∧ c.tokens.length = tokens.length

def simAt (store : List LogCluster) (tokens : List String) (i : Nat) : ℚ :=
  match store[i]? with
  | some c => calculateSimilarity c.tokens tokens
  | none => 0

lemma simAt_eq {store : List LogCluster} (tokens : List String) {i : Nat}
    {c : LogCluster} (hsi : store[i]? = some c) :
    simAt store tokens i = calculateSimilarity c.tokens tokens := by
  unfold simAt
  rw [hsi]

/-- The loop invariant of `findBestMatch`: while no best cluster is
recorded the running maximum is the initial `0.0`; a recorded best is
eligible, meets the threshold, and its similarity is the running
maximum. -/
def fbmInv (store : List LogCluster) (tokens : List String) (thr : ℚ)
    (best : Option Nat) (maxSim : ℚ) : Prop :=
  (best = none → maxSim = 0) ∧
  (∀ j, best = some j →
    eligibleCluster store tokens j ∧ thr ≤ simAt store tokens j ∧
    maxSim = simAt store tokens j)

lemma fbmInv_init (store : List LogCluster) (tokens : List String) (thr : ℚ) :
    fbmInv store tokens thr none 0 :=
  ⟨fun _ => rfl, fun j hj => Option.noConfusion hj⟩

lemma fbmInv_update {store : List LogCluster} {tokens : List String} {thr : ℚ}
    {maxSim : ℚ} {i : Nat} {c : LogCluster} (hsi : store[i]? = some c)
    (hlen : ¬c.tokens.length ≠ tokens.length)
    (hcond : maxSim < calculateSimilarity c.tokens tokens ∧
             thr ≤ calculateSimilarity c.tokens tokens) :
    fbmInv store tokens thr (some i) (calculateSimilarity c.tokens tokens) := by
  constructor
  · intro h; exact Option.noConfusion h
  · intro j hj
    obtain rfl := Option.some.inj hj
    have hsim := simAt_eq tokens hsi
    exact ⟨⟨c, hsi, not_ne_iff.mp hlen⟩, hsim ▸ hcond.2, hsim.symm⟩

/-- One unfolding of the loop. -/
lemma fbmGo_cons (store : List LogCluster) (tokens : List String) (thr : ℚ)
    (i : Nat) (rest : List Nat) (best : Option Nat) (maxSim : ℚ) :
    findBestMatchGo store tokens thr (i :: rest) best maxSim =
      match store[i]? with
      | none => findBestMatchGo store tokens thr rest best maxSim
      | some c =>
        if c.tokens.length ≠ tokens.length then
          findBestMatchGo store tokens thr rest best maxSim
        else if maxSim < calculateSimilarity c.tokens tokens ∧
                thr ≤ calculateSimilarity c.tokens tokens then
          findBestMatchGo store tokens thr rest (some i)
            (calculateSimilarity c.tokens tokens)
        else
          findBestMatchGo store tokens thr rest best maxSim := rfl

/-- Once a best cluster is recorded the loop returns some cluster. -/
lemma fbmGo_some_stays (store : List LogCluster) (tokens : List String) (thr : ℚ) :
    ∀ (idxs : List Nat) (best : Option Nat) (maxSim : ℚ) (j0 : Nat),
      best = some j0 →
      ∃ j, findBestMatchGo store tokens thr idxs best maxSim = some j := by
  intro idxs
  induction idxs with
  | nil =>
    intro best maxSim j0 hb
    exact ⟨j0, by simp [findBestMatchGo, hb]⟩
  | cons i rest ih =>
    intro best maxSim j0 hb
    rw [fbmGo_cons]
    cases hsi : store[i]? with
    | none => exact ih best maxSim j0 hb
    | some c =>
      dsimp only
      by_cases hlen : c.tokens.length ≠ tokens.length
      · rw [if_pos hlen]; exact ih best maxSim j0 hb
      · rw [if_neg hlen]
        by_cases hcond : maxSim < calculateSimilarity c.tokens tokens ∧
            thr ≤ calculateSimilarity c.tokens tokens
        · rw [if_pos hcond]; exact ih _ _ i rfl
        · rw [if_neg hcond]; exact ih best maxSim j0 hb

/-- Core properties of a returned index: eligibility, the similarity
floor, domination of the running maximum, and strict progress beyond
the incoming accumulator. -/
lemma fbmGo_result_props (store : List LogCluster) (tokens : List String) (thr : ℚ) :
    ∀ (idxs : List Nat) (best : Option Nat) (maxSim : ℚ),
      fbmInv store tokens thr best maxSim →
      ∀ j, findBestMatchGo store tokens thr idxs best maxSim = some j →
        eligibleCluster store tokens j ∧ thr ≤ simAt store tokens j ∧
        maxSim ≤ simAt store tokens j ∧
        (best = some j ∨ maxSim < simAt store tokens j) := by
  intro idxs
  induction idxs with
  | nil =>
    intro best maxSim hinv j hj
    simp only [findBestMatchGo] at hj
    obtain ⟨hel, hthr, hms⟩ := hinv.2 j hj
    exact ⟨hel, hthr, hms.le, Or.inl hj⟩
  | cons i rest ih =>
    intro best maxSim hinv j hj
    rw [fbmGo_cons] at hj
    cases hsi : store[i]? with
    | none =>
      rw [hsi] at hj
      exact ih best maxSim hinv j hj
    | some c =>
      rw [hsi] at hj
      dsimp only at hj
      by_cases hlen : c.tokens.length ≠ tokens.length
      · rw [if_pos hlen] at hj
        exact ih best maxSim hinv j hj
      · rw [if_neg hlen] at hj
        by_cases hcond : maxSim < calculateSimilarity c.tokens tokens ∧
            thr ≤ calculateSimilarity c.tokens tokens
        · rw [if_pos hcond] at hj
          obtain ⟨hel, hthr, hms, _⟩ :=
            ih _ _ (fbmInv_update hsi hlen hcond) j hj
          refine ⟨hel, hthr, le_of_lt (lt_of_lt_of_le hcond.1 hms), Or.inr ?_⟩
          exact lt_of_lt_of_le hcond.1 hms
        · rw [if_neg hcond] at hj
          exact ih best maxSim hinv j hj

/-- Maximality: the returned cluster dominates every eligible,
threshold-meeting cluster of the scanned list. -/
lemma fbmGo_maximal (store : List LogCluster) (tokens : List String) (thr : ℚ) :
    ∀ (idxs : List Nat) (best : Option Nat) (maxSim : ℚ),
      fbmInv store tokens thr best maxSim →
      ∀ j, findBestMatchGo store tokens thr idxs best maxSim = some j →
        ∀ k ∈ idxs, eligibleCluster store tokens k → thr ≤ simAt store tokens k →
          simAt store tokens k ≤ simAt store tokens j := by
  intro idxs
  induction idxs with
  | nil => intro best maxSim _ j _ k hk; exact absurd hk (by simp)
  | cons i rest ih =>
    intro best maxSim hinv j hj k hk hkel hkthr
    rw [fbmGo_cons] at hj
    rcases List.mem_cons.mp hk with rfl | hkrest
    · -- k = i: the loop examined this very cluster
      obtain ⟨c, hsi, hclen⟩ := hkel
      rw [hsi] at hj
      dsimp only at hj
      rw [if_neg (not_ne_iff.mpr hclen)] at hj
      have hsim := simAt_eq tokens hsi
      by_cases hcond : maxSim < calculateSimilarity c.tokens tokens ∧
          thr ≤ calculateSimilarity c.tokens tokens
      · rw [if_pos hcond] at hj
        obtain ⟨_, _, hms, _⟩ := fbmGo_result_props store tokens thr rest _ _
          (fbmInv_update hsi (not_ne_iff.mpr hclen |> not_not_intro
            |> fun h => by simpa using h) hcond) j hj
        rw [hsim]
        exact hms
      · rw [if_neg hcond] at hj
        obtain ⟨_, _, hms, _⟩ := fbmGo_result_props store tokens thr rest _ _ hinv j hj
        have hle : calculateSimilarity c.tokens tokens ≤ maxSim := by
          by_contra hgt
          exact hcond ⟨lt_of_not_le hgt, by rwa [hsim] at hkthr⟩
        rw [hsim]
        exact le_trans hle hms
    · -- k in the remainder
      cases hsi : store[i]? with
      | none =>
        rw [hsi] at hj
        exact ih best maxSim hinv j hj k hkrest hkel hkthr
      | some c =>
        rw [hsi] at hj
        dsimp only at hj
        by_cases hlen : c.tokens.length ≠ tokens.length
        · rw [if_pos hlen] at hj
          exact ih best maxSim hinv j hj k hkrest hkel hkthr
        · rw [if_neg hlen] at hj
          by_cases hcond : maxSim < calculateSimilarity c.tokens tokens ∧
              thr ≤ calculateSimilarity c.tokens tokens
          · rw [if_pos hcond] at hj
            exact ih _ _ (fbmInv_update hsi hlen hcond) j hj k hkrest hkel hkthr
          · rw [if_neg hcond] at hj
            exact ih best maxSim hinv j hj k hkrest hkel hkthr

/-- Tie-breaking: the returned index either was the incoming best or
splits the scanned list so that no earlier entry is eligible, meets the
threshold, and ties or beats it. -/
lemma fbmGo_first_wins (store : List LogCluster) (tokens : List String) (thr : ℚ) :
    ∀ (idxs : List Nat) (best : Option Nat) (maxSim : ℚ),
      fbmInv store tokens thr best maxSim →
      ∀ j, findBestMatchGo store tokens thr idxs best maxSim = some j →
        best = some j ∨
        ∃ l1 l2, idxs = l1 ++ j :: l2 ∧
          ∀ k ∈ l1, ¬(eligibleCluster store tokens k ∧ thr ≤ simAt store tokens k ∧
                       simAt store tokens j ≤ simAt store tokens k) := by
  intro idxs
  induction idxs with
  | nil =>
    intro best maxSim _ j hj
    simp only [findBestMatchGo] at hj
    exact Or.inl hj
  | cons i rest ih =>
    intro best maxSim hinv j hj
    rw [fbmGo_cons] at hj
    cases hsi : store[i]? with
    | none =>
      rw [hsi] at hj
      have hnoteli : ¬eligibleCluster store tokens i := by
        rintro ⟨c, hc, _⟩
        rw [hsi] at hc
        exact Option.noConfusion hc
      rcases ih best maxSim hinv j hj with hb | ⟨l1, l2, hsplit, hneg⟩
      · exact Or.inl hb
      · refine Or.inr ⟨i :: l1, l2, by simp [hsplit], ?_⟩
        intro k hk
        rcases List.mem_cons.mp hk with rfl | hkl
        · rintro ⟨hel, _, _⟩
          exact hnoteli hel
        · exact hneg k hkl
    | some c =>
      rw [hsi] at hj
      dsimp only at hj
      by_cases hlen : c.tokens.length ≠ tokens.length
      · rw [if_pos hlen] at hj
        have hnoteli : ¬eligibleCluster store tokens i := by
          rintro ⟨c', hc', hl'⟩
          rw [hsi] at hc'
          obtain rfl := Option.some.inj hc'
          exact hlen hl'
        rcases ih best maxSim hinv j hj with hb | ⟨l1, l2, hsplit, hneg⟩
        · exact Or.inl hb
        · refine Or.inr ⟨i :: l1, l2, by simp [hsplit], ?_⟩
          intro k hk
          rcases List.mem_cons.mp hk with rfl | hkl
          · rintro ⟨hel, _, _⟩
            exact hnoteli hel
          · exact hneg k hkl
      · rw [if_neg hlen] at hj
        have hsim := simAt_eq tokens hsi
        by_cases hcond : maxSim < calculateSimilarity c.tokens tokens ∧
            thr ≤ calculateSimilarity c.tokens tokens
        · rw [if_pos hcond] at hj
          by_cases hji : j = i
          · subst hji
            exact Or.inr ⟨[], rest, rfl, by simp⟩
          · have hprops := fbmGo_result_props store tokens thr rest _ _
              (fbmInv_update hsi hlen hcond) j hj
            have hstrict : calculateSimilarity c.tokens tokens < simAt store tokens j := by
              rcases hprops.2.2.2 with hbj | hlt
              · exact absurd (Option.some.inj hbj).symm hji
              · exact hlt
            rcases ih _ _ (fbmInv_update hsi hlen hcond) j hj with hb | ⟨l1, l2, hsplit, hneg⟩
            · exact absurd (Option.some.inj hb).symm hji
            · refine Or.inr ⟨i :: l1, l2, by simp [hsplit], ?_⟩
              intro k hk
              rcases List.mem_cons.mp hk with rfl | hkl
              · rintro ⟨_, _, hge⟩
                rw [hsim] at hge
                exact absurd hge (not_le.mpr hstrict)
              · exact hneg k hkl
        · rw [if_neg hcond] at hj
          have hprops := fbmGo_result_props store tokens thr rest _ _ hinv j hj
          rcases hprops.2.2.2 with hbj | hlt
          · exact Or.inl hbj
          · rcases ih best maxSim hinv j hj with hb | ⟨l1, l2, hsplit, hneg⟩
            · exact Or.inl hb
            · refine Or.inr ⟨i :: l1, l2, by simp [hsplit], ?_⟩
              intro k hk
              rcases List.mem_cons.mp hk with rfl | hkl
              · rintro ⟨hel, hthr', hge⟩
                obtain ⟨c', hc', hl'⟩ := hel
                rw [hsi] at hc'
                obtain rfl := Option.some.inj hc'
                rw [hsim] at hthr' hge
                have hle : calculateSimilarity c.tokens tokens ≤ maxSim := by
                  by_contra hgt
                  exact hcond ⟨lt_of_not_le hgt, hthr'⟩
                exact absurd (lt_of_le_of_lt (le_trans hge hle) hlt) (lt_irrefl _)
              · exact hneg k hkl

/-- Completeness for a positive threshold: if some scanned index is
eligible and meets the threshold, the loop returns a cluster. -/
lemma fbmGo_complete (store : List LogCluster) (tokens : List String) (thr : ℚ)
    (hthr : 0 < thr) :
    ∀ (idxs : List Nat) (best : Option Nat) (maxSim : ℚ),
      fbmInv store tokens thr best maxSim →
      (∃ k ∈ idxs, eligibleCluster store tokens k ∧ thr ≤ simAt store tokens k) →
      ∃ j, findBestMatchGo store tokens thr idxs best maxSim = some j := by
  intro idxs
  induction idxs with
  | nil =>
    rintro best maxSim _ ⟨k, hk, _⟩
    exact absurd hk (by simp)
  | cons i rest ih =>
    rintro best maxSim hinv ⟨k, hk, hkel, hkthr⟩
    cases hb : best with
    | some j0 =>
      exact fbmGo_some_stays store tokens thr (i :: rest) (some j0) maxSim j0 rfl
    | none =>
      subst hb
      obtain rfl := hinv.1 rfl
      rw [fbmGo_cons]
      rcases List.mem_cons.mp hk with rfl | hkrest
      · obtain ⟨c, hsi, hclen⟩ := hkel
        rw [hsi]
        dsimp only
        rw [if_neg (not_ne_iff.mpr hclen)]
        have hsim := simAt_eq tokens hsi
        rw [hsim] at hkthr
        rw [if_pos ⟨lt_of_lt_of_le hthr hkthr, hkthr⟩]
        exact fbmGo_some_stays store tokens thr rest _ _ k rfl
      · cases hsi : store[i]? with
        | none => exact ih none 0 hinv ⟨k, hkrest, hkel, hkthr⟩
        | some c =>
          dsimp only
          by_cases hlen : c.tokens.length ≠ tokens.length
          · rw [if_pos hlen]
            exact ih none 0 hinv ⟨k, hkrest, hkel, hkthr⟩
          · rw [if_neg hlen]
            by_cases hcond : (0:ℚ) < calculateSimilarity c.tokens tokens ∧
                thr ≤ calculateSimilarity c.tokens tokens
            · rw [if_pos hcond]
              exact fbmGo_some_stays store tokens thr rest _ _ i rfl
            · rw [if_neg hcond]
              exact ih none 0 hinv ⟨k, hkrest, hkel, hkthr⟩

/-- The similarity floor, at the `findBestMatch` entry point. -/
lemma findBestMatch_floor {store : List LogCluster} {idxs : List Nat}
    {tokens : List String} {thr : ℚ} {j : Nat}
    (hj : findBestMatch store idxs tokens thr = some j) :
    eligibleCluster store tokens j ∧ thr ≤ simAt store tokens j := by
  obtain ⟨hel, hthr, _, _⟩ :=
    fbmGo_result_props store tokens thr idxs none 0 (fbmInv_init store tokens thr) j hj
  exact ⟨hel, hthr⟩

/-- Every cluster returned by the tree lookup went through some
`findBestMatch`, so it satisfies the similarity floor. -/
lemma treeSearchGo_floor (store : List LogCluster) (tokens : List String)
    (maxDepth : Nat) (thr : ℚ) :
    ∀ (fuel : Nat) (node : ClusterNode) (depth : Nat) (j : Nat),
      treeSearchGo store tokens maxDepth thr fuel node depth = some j →
      eligibleCluster store tokens j ∧ thr ≤ simAt store tokens j := by
  intro fuel
  induction fuel with
  | zero =>
    intro node depth j hj
    exact findBestMatch_floor hj
  | succ fuel ih =>
    intro node depth j hj
    unfold treeSearchGo at hj
    split at hj
    · exact findBestMatch_floor hj
    · split at hj
      · split at hj
        · exact ih _ _ j hj
        · exact Option.noConfusion hj
      · split at hj
        · split at hj
          · exact ih _ _ j hj
          · split at hj
            · exact ih _ _ j hj
            · exact findBestMatch_floor hj
        · exact findBestMatch_floor hj

/-- C2: `findBestMatch` returns, among the node's clusters of the
line's token length, a cluster of maximal similarity subject to the
`sim_threshold` floor, breaking ties by insertion order (first match
wins); for a positive threshold it returns a cluster whenever one
qualifies; and consequently a `Parse` hit (`is_new = false`) only ever
absorbs the line into a cluster whose similarity meets the tree's
threshold. -/
theorem drain_findBestMatch_selection :
    (∀ (store : List LogCluster) (idxs : List Nat) (tokens : List String)
        (thr : ℚ) (j : Nat),
        findBestMatch store idxs tokens thr = some j →
        eligibleCluster store tokens j ∧
        thr ≤ simAt store tokens j ∧
        (∀ k ∈ idxs, eligibleCluster store tokens k →
            simAt store tokens k ≤ simAt store tokens j) ∧
        (∃ l1 l2, idxs = l1 ++ j :: l2 ∧
            ∀ k ∈ l1, ¬(eligibleCluster store tokens k ∧
                thr ≤ simAt store tokens k ∧
                simAt store tokens j ≤ simAt store tokens k))) ∧
    (∀ (store : List LogCluster) (idxs : List Nat) (tokens : List String)
        (thr : ℚ), 0 < thr →
        (∃ k ∈ idxs, eligibleCluster store tokens k ∧ thr ≤ simAt store tokens k) →
        ∃ j, findBestMatch store idxs tokens thr = some j) ∧
    (∀ (dt : DrainTree) (line : String) (ts : Int) (dt' : DrainTree)
        (r : ParseResult),
        parse dt line ts = Except.ok (dt', r) → r.isNew = false →
        ∃ (idx : Nat) (c : LogCluster), dt.store[idx]? = some c ∧
          c.tokens.length = (preprocessTokens (goFields line)).length ∧
          dt.simThreshold ≤
            calculateSimilarity c.tokens (preprocessTokens (goFields line))) := by
  refine ⟨?_, ?_, ?_⟩
  · intro store idxs tokens thr j hj
    obtain ⟨hel, hthr, _, _⟩ :=
      fbmGo_result_props store tokens thr idxs none 0 (fbmInv_init store tokens thr) j hj
    refine ⟨hel, hthr, ?_, ?_⟩
    · intro k hk hkel
      by_cases hkthr : thr ≤ simAt store tokens k
      · exact fbmGo_maximal store tokens thr idxs none 0 (fbmInv_init store tokens thr)
          j hj k hk hkel hkthr
      · exact le_trans (not_le.mp hkthr).le hthr
    · rcases fbmGo_first_wins store tokens thr idxs none 0
          (fbmInv_init store tokens thr) j hj with hb | hsplit
      · exact Option.noConfusion hb
      · exact hsplit
  · intro store idxs tokens thr hthr hex
    exact fbmGo_complete store tokens thr hthr idxs none 0
      (fbmInv_init store tokens thr) hex
  · intro dt line ts dt' r hp hnew
    rcases parse_ok_cases hp with ⟨idx, c0, hts, hc0, _⟩ | hpair
    · obtain ⟨⟨c, hc, hlen⟩, hthr⟩ :=
        treeSearchGo_floor dt.store (preprocessTokens (goFields line))
          dt.maxDepth dt.simThreshold _ _ _ idx hts
      rw [simAt_eq (preprocessTokens (goFields line)) hc] at hthr
      exact ⟨idx, c, hc, hlen, hthr⟩
    · have : r.isNew = true := (congrArg (fun p => p.2.isNew) hpair).trans rfl
      rw [this] at hnew
      exact absurd hnew (by simp)

theorem drain_findBestMatch_selection_witness :
    (∃ j, findBestMatch c1tree.store [0] ["a", "<*>"] (1/2) = some j) ∧
    (∃ (idx : Nat) (c : LogCluster), c1tree.store[idx]? = some c ∧
      c.tokens.length = (preprocessTokens (goFields "a 2")).length ∧
      c1tree.simThreshold ≤
        calculateSimilarity c.tokens (preprocessTokens (goFields "a 2"))) :=
  ⟨drain_findBestMatch_selection.2.1 c1tree.store [0] ["a", "<*>"] (1/2)
      (by norm_num)
      ⟨0, by decide, ⟨c1clu, by rfl, by rfl⟩, by with_unfolding_all decide⟩,
   drain_findBestMatch_selection.2.2 c1tree "a 2" 5 c1pair.1 c1pair.2
      (by with_unfolding_all rfl) (by with_unfolding_all rfl)⟩
